import Mathlib

/-!
Verification of `pytorch_unet/trainer/interpret.py`.

The file shallowly embeds the script's own logic.  External framework
primitives (torch tensors, `F.avg_pool2d`, autograd, matplotlib, argparse's
generic option machinery) are modelled abstractly: pooling as an arbitrary
function `pool : T → T`, the model's forward/backward pass as a structure
carrying an output vector and a gradient oracle, file writes as the list of
paths passed to `savefig`.  Everything the script itself computes — the
recursion of `do_pooling`, the name filtering of `get_values` /
`get_block_list`, the zip-truncated plotting loops of `block_filters`, the
one-hot construction and postprocessing dispatch of `sensitivity_analysis`,
the path format strings, the option table of `parse_args` and the dispatch
of `main` — is embedded directly from the source.
-/

set_option maxHeartbeats 1000000

/-- Shallow embedding of `do_pooling(dep, d)` (interpret.py lines 50–55):

    if (dep - 1) == 1:
        return F.avg_pool2d(d, 2)
    else:
        return F.avg_pool2d(do_pooling(dep - 1, d), 2)

`F.avg_pool2d(·, 2)` is an external framework primitive and is embedded as
an abstract function `pool : T → T`.  The Python recursion has no
structural termination argument, so the embedding takes explicit fuel and
returns `none` when the fuel runs out: the source terminates on exactly the
arguments for which some fuel amount yields `some`. -/
def do_pooling {T : Type} (pool : T → T) : Nat → Int → T → Option T
  | 0, _, _ => none
  | fuel + 1, dep, d =>
    if dep - 1 = 1 then some (pool d)
    else (do_pooling pool fuel (dep - 1) d).map pool

theorem do_pooling_eq_iterate {T : Type} (pool : T → T) :
    ∀ (fuel : Nat) (dep : Int) (d : T), 2 ≤ dep → (dep - 1).toNat ≤ fuel →
      do_pooling pool fuel dep d = some (pool^[(dep - 1).toNat] d) := by
  intro fuel
  induction fuel with
  | zero =>
    intro dep d h2 hf
    exfalso
    omega
  | succ n ih =>
    intro dep d h2 hf
    by_cases h : dep - 1 = 1
    · have h1 : (dep - 1).toNat = 1 := by omega
      simp [do_pooling, h, h1]
    · have h3 : 3 ≤ dep := by omega
      have hrec := ih (dep - 1) d (by omega) (by omega)
      have hstep : (dep - 1).toNat = (dep - 1 - 1).toNat + 1 := by omega
      simp only [do_pooling, if_neg h, hrec, Option.map_some']
      rw [hstep, Function.iterate_succ_apply']

theorem do_pooling_none {T : Type} (pool : T → T) :
    ∀ (fuel : Nat) (dep : Int) (d : T), dep ≤ 1 →
      do_pooling pool fuel dep d = none := by
  intro fuel
  induction fuel with
  | zero => intro dep d _; rfl
  | succ n ih =>
    intro dep d h
    have h1 : ¬(dep - 1 = 1) := by omega
    simp only [do_pooling, if_neg h1, ih (dep - 1) d (by omega), Option.map_none']

/-- Claim C2: for every `dep ≥ 2` and every input `d`, `do_pooling dep d`
terminates (some fuel no smaller than `dep - 1` suffices, and larger fuel
gives the same answer) and equals applying the 2x2 average-pooling
primitive to `d` exactly `dep - 1` times; for every `dep ≤ 1` the recursion
never reaches its base case, so no amount of fuel produces a result. -/
theorem C2_do_pooling {T : Type} (pool : T → T) (dep : Int) (d : T) :
    (2 ≤ dep → ∀ fuel : Nat, (dep - 1).toNat ≤ fuel →
        do_pooling pool fuel dep d = some (pool^[(dep - 1).toNat] d)) ∧
    (dep ≤ 1 → ∀ fuel : Nat, do_pooling pool fuel dep d = none) :=
  ⟨fun h2 fuel hf => do_pooling_eq_iterate pool fuel dep d h2 hf,
   fun h1 fuel => do_pooling_none pool fuel dep d h1⟩

/-- Witness for C2 at a concrete input: with pooling modelled on spatial
dimensions as halving each one, depth 3 pools a 64x64 input twice down to
16x16, while depth 1 diverges (here: fails for every fuel tried). -/
theorem C2_do_pooling_witness :
    do_pooling (fun p : Nat × Nat => (p.1 / 2, p.2 / 2)) 2 3 (64, 64) = some (16, 16) ∧
    do_pooling (fun p : Nat × Nat => (p.1 / 2, p.2 / 2)) 5 1 (64, 64) = none := by
  constructor
  · exact ((C2_do_pooling (fun p : Nat × Nat => (p.1 / 2, p.2 / 2)) 3 (64, 64)).1
      (by decide) 2 (by decide)).trans (by decide)
  · exact (C2_do_pooling (fun p : Nat × Nat => (p.1 / 2, p.2 / 2)) 1 (64, 64)).2 (by decide) 5

/-- Embedding of a Python `for`-loop that builds a list by appending
`f a` for each element `a`, where evaluating `f` can fail (an uncaught
exception, modelled as `none`): the first failure aborts the whole
computation. -/
def listMapM {α β : Type} (f : α → Option β) : List α → Option (List β)
  | [] => some []
  | a :: as =>
    match f a with
    | none => none
    | some b =>
      match listMapM f as with
      | none => none
      | some bs => some (b :: bs)

theorem listMapM_isSome {α β : Type} {f : α → Option β} :
    ∀ {l : List α}, (∀ a ∈ l, ∃ b, f a = some b) → ∃ ys, listMapM f l = some ys := by
  intro l
  induction l with
  | nil => intro _; exact ⟨[], rfl⟩
  | cons a as ih =>
    intro h
    obtain ⟨b, hb⟩ := h a (List.mem_cons_self a as)
    obtain ⟨bs, hbs⟩ := ih (fun x hx => h x (List.mem_cons_of_mem a hx))
    exact ⟨b :: bs, by simp [listMapM, hb, hbs]⟩

theorem listMapM_eq_none {α β : Type} {f : α → Option β} :
    ∀ {l : List α} {a : α}, a ∈ l → f a = none → listMapM f l = none := by
  intro l
  induction l with
  | nil => intro a ha; exact absurd ha (List.not_mem_nil a)
  | cons x xs ih =>
    intro a ha hfa
    rcases List.mem_cons.mp ha with h | h
    · subst h; simp [listMapM, hfa]
    · cases hx : f x with
      | none => simp [listMapM, hx]
      | some b => simp [listMapM, hx, ih h hfa]

theorem listMapM_length {α β : Type} {f : α → Option β} :
    ∀ {l : List α} {ys : List β}, listMapM f l = some ys → ys.length = l.length := by
  intro l
  induction l with
  | nil => intro ys h; simp [listMapM] at h; simp [h.symm]
  | cons a as ih =>
    intro ys h
    cases ha : f a with
    | none => rw [listMapM, ha] at h; exact absurd h (by simp)
    | some b =>
      rw [listMapM, ha] at h
      cases has : listMapM f as with
      | none => rw [has] at h; exact absurd h (by simp)
      | some bs =>
        rw [has] at h
        simp only [Option.some.injEq] at h
        subst h
        simp [ih has]

theorem listMapM_get? {α β : Type} {f : α → Option β} :
    ∀ {l : List α} {ys : List β}, listMapM f l = some ys →
      ∀ i : Nat, ys.get? i = (l.get? i).bind f := by
  intro l
  induction l with
  | nil =>
    intro ys h i
    simp only [listMapM, Option.some.injEq] at h
    subst h
    simp
  | cons a as ih =>
    intro ys h i
    cases ha : f a with
    | none => rw [listMapM, ha] at h; exact absurd h (by simp)
    | some b =>
      rw [listMapM, ha] at h
      cases has : listMapM f as with
      | none => rw [has] at h; exact absurd h (by simp)
      | some bs =>
        rw [has] at h
        simp only [Option.some.injEq] at h
        subst h
        cases i with
        | zero => simp [ha]
        | succ n => simpa using ih has n

/-- Shallow embedding of `get_values(iterables, key_to_find)`
(interpret.py lines 45–47):

    return list(filter(lambda z: key_to_find in z, iterables))

In `block_filters` the `iterables` are the `(name, module)` tuples produced
by `model.named_modules()`, so each `z` is a pair and the Python operator
`in` tests membership in the tuple, i.e. *equality* of `key_to_find` with
one of the two components.  A string never compares equal to a module
object (the default `__eq__` of framework modules is identity), so the
filter keeps exactly the entries whose name component equals the key. -/
def get_values {M : Type} (iterables : List (String × M)) (key_to_find : String) :
    List (String × M) :=
  iterables.filter (fun z => z.1 == key_to_find)

theorem filter_get?_zero {α : Type} (p : α → Bool) :
    ∀ l : List α, (l.filter p).get? 0 = l.find? p := by
  intro l
  induction l with
  | nil => rfl
  | cons a as ih =>
    by_cases h : p a
    · simp [List.filter_cons, List.find?_cons, h]
    · simp only [List.filter_cons, List.find?_cons, h]
      simpa [h] using ih

theorem get_values_get?_zero {M : Type} (child_list : List (String × M)) (key : String) :
    (get_values child_list key).get? 0 = child_list.find? (fun z => z.1 == key) :=
  filter_get?_zero _ child_list

/-- Shallow embedding of `get_block_list(child_list, args)`
(interpret.py lines 58–83).  The four Python loops build
`down_seq[y] = get_values(child_list, 'down_path.{}'.format(y))` for
`y < depth`, then `down_block_list[x] = down_seq[x][0][1]` (the module
component of the first entry of each filtered list, an uncaught
`IndexError` — modelled as `none` — when a filtered list is empty), and
the same for `up_path` with `depth - 1`. -/
def get_block_list {M : Type} (child_list : List (String × M)) (depth : Nat) :
    Option (List M × List M) :=
  match listMapM (fun s => (s.get? 0).map Prod.snd)
      ((List.range depth).map (fun y => get_values child_list ("down_path." ++ toString y))) with
  | none => none
  | some down_block_list =>
    match listMapM (fun s => (s.get? 0).map Prod.snd)
        ((List.range (depth - 1)).map (fun y => get_values child_list ("up_path." ++ toString y))) with
    | none => none
    | some up_block_list => some (down_block_list, up_block_list)

/-- The precondition `get_block_list` actually needs: an entry whose name is
*exactly* `down_path.y` (resp. `up_path.y`) for every level, because the
Python `in` test on the `(name, module)` tuples is equality, not substring
search. -/
def has_exact_block_names {M : Type} (child_list : List (String × M)) (depth : Nat) : Prop :=
  (∀ y, y < depth → ∃ e ∈ child_list, e.1 = "down_path." ++ toString y) ∧
  (∀ y, y < depth - 1 → ∃ e ∈ child_list, e.1 = "up_path." ++ toString y)

theorem find?_name_isSome {M : Type} {child_list : List (String × M)} {key : String}
    (h : ∃ e ∈ child_list, e.1 = key) :
    ∃ r, child_list.find? (fun z => z.1 == key) = some r := by
  obtain ⟨e, he, hkey⟩ := h
  have hsome : (child_list.find? (fun z => z.1 == key)).isSome := by
    rw [List.find?_isSome]
    exact ⟨e, he, by simp [hkey]⟩
  exact Option.isSome_iff_exists.mp hsome

theorem find?_name_eq_none {M : Type} {child_list : List (String × M)} {key : String}
    (h : ∀ e ∈ child_list, e.1 ≠ key) :
    child_list.find? (fun z => z.1 == key) = none := by
  rw [List.find?_eq_none]
  intro e he
  simp [h e he]

/-- Claim C4 (amended): `get_block_list` requires, for every `y < depth`, an
entry whose name is exactly `down_path.y`, and for every `y < depth - 1` one
named exactly `up_path.y` (the Python `in` on the `(name, module)` tuples is
equality with the name, not substring search).  Under that precondition it
returns a down list of length `depth` and an up list of length `depth - 1`,
each element the module part of the first matching entry in list order; when
any name is missing, the `[0]` index raises (modelled as `none`). -/
theorem C4_get_block_list {M : Type} (child_list : List (String × M)) (depth : Nat) :
    (has_exact_block_names child_list depth →
      ∃ down up, get_block_list child_list depth = some (down, up) ∧
        down.length = depth ∧ up.length = depth - 1 ∧
        (∀ y, y < depth → down.get? y =
          (child_list.find? (fun z => z.1 == "down_path." ++ toString y)).map Prod.snd) ∧
        (∀ y, y < depth - 1 → up.get? y =
          (child_list.find? (fun z => z.1 == "up_path." ++ toString y)).map Prod.snd)) ∧
    (¬ has_exact_block_names child_list depth →
      get_block_list child_list depth = none) := by
  have hstep : ∀ (key : String),
      (∃ e ∈ child_list, e.1 = key) →
      ∃ b, ((get_values child_list key).get? 0).map Prod.snd = some b := by
    intro key hk
    obtain ⟨r, hr⟩ := find?_name_isSome hk
    exact ⟨r.2, by rw [get_values_get?_zero, hr]; rfl⟩
  have hstep_none : ∀ (key : String),
      (∀ e ∈ child_list, e.1 ≠ key) →
      ((get_values child_list key).get? 0).map Prod.snd = none := by
    intro key hk
    rw [get_values_get?_zero, find?_name_eq_none hk]
    rfl
  constructor
  · rintro ⟨hd, hu⟩
    obtain ⟨down, hdown⟩ := listMapM_isSome (f := fun s => (s.get? 0).map Prod.snd)
      (l := (List.range depth).map (fun y => get_values child_list ("down_path." ++ toString y)))
      (by
        intro s hs
        rw [List.mem_map] at hs
        obtain ⟨y, hy, rfl⟩ := hs
        rw [List.mem_range] at hy
        exact hstep _ (hd y hy))
    obtain ⟨up, hup⟩ := listMapM_isSome (f := fun s => (s.get? 0).map Prod.snd)
      (l := (List.range (depth - 1)).map (fun y => get_values child_list ("up_path." ++ toString y)))
      (by
        intro s hs
        rw [List.mem_map] at hs
        obtain ⟨y, hy, rfl⟩ := hs
        rw [List.mem_range] at hy
        exact hstep _ (hu y hy))
    refine ⟨down, up, ?_, ?_, ?_, ?_, ?_⟩
    · unfold get_block_list
      rw [hdown, hup]
    · rw [listMapM_length hdown, List.length_map, List.length_range]
    · rw [listMapM_length hup, List.length_map, List.length_range]
    · intro y hy
      rw [listMapM_get? hdown y, List.get?_map, List.get?_range hy]
      simp only [Option.map_some', Option.some_bind]
      rw [get_values_get?_zero]
    · intro y hy
      rw [listMapM_get? hup y, List.get?_map, List.get?_range hy]
      simp only [Option.map_some', Option.some_bind]
      rw [get_values_get?_zero]
  · intro hn
    rcases Classical.em
        (∀ y, y < depth → ∃ e ∈ child_list, e.1 = "down_path." ++ toString y) with hd | hd
    · have hu : ¬ (∀ y, y < depth - 1 → ∃ e ∈ child_list, e.1 = "up_path." ++ toString y) :=
        fun h => hn ⟨hd, h⟩
      push_neg at hu
      obtain ⟨y, hy, hymiss⟩ := hu
      obtain ⟨down, hdown⟩ := listMapM_isSome (f := fun s => (s.get? 0).map Prod.snd)
        (l := (List.range depth).map (fun y => get_values child_list ("down_path." ++ toString y)))
        (by
          intro s hs
          rw [List.mem_map] at hs
          obtain ⟨z, hz, rfl⟩ := hs
          rw [List.mem_range] at hz
          exact hstep _ (hd z hz))
      have hupnone : listMapM (fun s => (s.get? 0).map Prod.snd)
          ((List.range (depth - 1)).map
            (fun y => get_values child_list ("up_path." ++ toString y))) = none := by
        apply listMapM_eq_none
          (a := get_values child_list ("up_path." ++ toString y))
        · exact List.mem_map_of_mem _ (List.mem_range.mpr hy)
        · exact hstep_none _ hymiss
      unfold get_block_list
      rw [hdown, hupnone]
    · push_neg at hd
      obtain ⟨y, hy, hymiss⟩ := hd
      have hdownnone : listMapM (fun s => (s.get? 0).map Prod.snd)
          ((List.range depth).map
            (fun y => get_values child_list ("down_path." ++ toString y))) = none := by
        apply listMapM_eq_none
          (a := get_values child_list ("down_path." ++ toString y))
        · exact List.mem_map_of_mem _ (List.mem_range.mpr hy)
        · exact hstep_none _ hymiss
      unfold get_block_list
      rw [hdownnone]

/-- Counterexample to C4 as stated: the claim's precondition asks only that
some entry's name *contain* `down_path.y` as a substring.  A child list
whose single entry is named `down_path.0.block` satisfies that for
`depth = 1` (the claim then promises a down list of length 1), yet
`get_block_list` fails, because the Python tuple-membership test demands
the name be exactly `down_path.0`. -/
theorem C4_counterexample :
    (∃ rest : String, "down_path.0.block" = "down_path.0" ++ rest) ∧
    get_block_list [("down_path.0.block", (0 : Nat))] 1 = none :=
  ⟨⟨".block", rfl⟩, by decide⟩

/-- Witness for the amended C4 at a concrete input: with entries named
exactly `down_path.0`, `down_path.1` and `up_path.0`, depth 2 succeeds and
the returned lists have lengths 2 and 1. -/
theorem C4_get_block_list_witness :
    ∃ down up : List Nat,
      get_block_list [("down_path.0", 1), ("down_path.1", 2), ("up_path.0", 3)] 2 =
        some (down, up) ∧ down.length = 2 ∧ up.length = 1 := by
  obtain ⟨down, up, heq, hld, hlu, _, _⟩ :=
    (C4_get_block_list [("down_path.0", (1 : Nat)), ("down_path.1", 2), ("up_path.0", 3)] 2).1
      ⟨by decide, by decide⟩
  exact ⟨down, up, heq, hld, hlu⟩

/-- Embedding of the `dep_list` loop of `block_filters`
(interpret.py lines 116–119):

    dep_list = [down_list[0](input_img)]
    for i in range(1, len(down_list)):
        dep_list.append(down_list[i](dep_list[i - 1]))

Each entry is the corresponding down block applied to the previous entry
(the first one to the input image). -/
def build_dep_list {T : Type} : List (T → T) → T → List T
  | [], _ => []
  | f :: rest, x => f x :: build_dep_list rest (f x)

theorem build_dep_list_length {T : Type} :
    ∀ (l : List (T → T)) (x : T), (build_dep_list l x).length = l.length := by
  intro l
  induction l with
  | nil => intro x; rfl
  | cons f rest ih => intro x; simp [build_dep_list, ih]

/-- The plotting loop for down blocks (interpret.py line 122):
`for j, m in zip(range(len(dep_list)), [64, 128, 256])` calls
`plot_block(..., name='down')` with filter size `m`; each call is recorded
as the event `("down", m)`. -/
def down_plot_events (n : Nat) : List (String × Nat) :=
  ((List.range n).zip [64, 128, 256]).map (fun p => ("down", p.2))

/-- The plotting loop for up blocks (interpret.py line 139):
`for j, m in zip(range(len(up_list)), [16, 32])` calls
`plot_block(..., name='up')` with filter size `m`. -/
def up_plot_events (n : Nat) : List (String × Nat) :=
  ((List.range n).zip [16, 32]).map (fun p => ("up", p.2))

/-- One iteration of the up-block loop (interpret.py lines 133–136):

    pools = do_pooling(args.depth, dep_list[i + 1])
    up_layer = reversed_uplist[i](pools, F.avg_pool2d(dep_list[i], 2))

List indexing can raise and `do_pooling` can diverge; both are `none`. -/
def up_block_step {T : Type} (pool : T → T) (dep_list : List T)
    (reversed_uplist : List (T × T → T)) (depth : Nat) (i : Nat) : Option T :=
  (dep_list.get? (i + 1)).bind (fun d1 =>
    (do_pooling pool depth ((depth : Int)) d1).bind (fun pools =>
      (reversed_uplist.get? i).bind (fun f =>
        (dep_list.get? i).map (fun d0 => f (pools, pool d0)))))

/-- Shallow embedding of `block_filters(model, img_path, args)`
(interpret.py lines 100–140), recording the `plot_block` calls it makes as
`(name, size)` events.  The down and up blocks recovered by
`get_block_list` and the pooling primitive are abstract parameters; the
result is `none` when the source would raise (empty down list at
`down_list[0]`, an index error in the up loop) or diverge
(`do_pooling` with depth below 2, possible only if the up list is longer
than `depth - 1`).  The Python `pooled` list (lines 127–129) is built from
total framework calls and never read afterwards, so it cannot change the
events and is omitted. -/
def block_filters {T : Type} (down_list : List (T → T)) (up_list : List (T × T → T))
    (pool : T → T) (depth : Nat) (input_img : T) : Option (List (String × Nat)) :=
  if down_list.isEmpty then none
  else
    match listMapM
        (up_block_step pool (build_dep_list down_list input_img) up_list.reverse depth)
        (List.range up_list.length) with
    | none => none
    | some _ =>
      some (down_plot_events (build_dep_list down_list input_img).length ++
        up_plot_events up_list.length)

theorem zip_range_map_tag {α : Type} (tag : String) :
    ∀ (a : List α) (l : List Nat),
      ((a.zip l).map (fun p => (tag, p.2))) = (l.take a.length).map (fun s => (tag, s)) := by
  intro a
  induction a with
  | nil => intro l; simp
  | cons x xs ih =>
    intro l
    cases l with
    | nil => simp
    | cons m ms => simp [List.zip_cons_cons, ih]

/-- Claim C3: `block_filters` hard-codes a 3-level depth assumption.  For
any blocks, pooling primitive and input whatsoever (given the list shapes
`get_block_list` produces for the configured depth), the down-block plots
are `zip`-truncated against the fixed list `[64, 128, 256]` — so there are
`min depth 3` of them, with sizes taken in order from that list — and the
up-block plots against the fixed list `[16, 32]` — `min (depth - 1) 2` of
them — independently of the actual sizes of the block outputs. -/
theorem C3_block_filters {T : Type} (down_list : List (T → T)) (up_list : List (T × T → T))
    (pool : T → T) (depth : Nat) (input_img : T)
    (hdep : 1 ≤ depth) (hd : down_list.length = depth) (hu : up_list.length = depth - 1) :
    block_filters down_list up_list pool depth input_img =
      some ((([64, 128, 256].take depth).map (fun s => ("down", s))) ++
            (([16, 32].take (depth - 1)).map (fun s => ("up", s)))) ∧
    (([64, 128, 256] : List Nat).take depth).length = min depth 3 ∧
    (([16, 32] : List Nat).take (depth - 1)).length = min (depth - 1) 2 := by
  have hne : down_list.isEmpty = false := by
    cases down_list with
    | nil => simp at hd; omega
    | cons f rest => rfl
  have hDL : (build_dep_list down_list input_img).length = depth := by
    rw [build_dep_list_length, hd]
  have hforall : ∀ i ∈ List.range up_list.length,
      ∃ b, up_block_step pool (build_dep_list down_list input_img)
        up_list.reverse depth i = some b := by
    intro i hi
    rw [List.mem_range] at hi
    have hdep2 : 2 ≤ depth := by omega
    have h1 : i + 1 < (build_dep_list down_list input_img).length := by omega
    have h0 : i < (build_dep_list down_list input_img).length := by omega
    have hr : i < up_list.reverse.length := by
      rw [List.length_reverse]; exact hi
    have hcast : (2 : Int) ≤ (depth : Int) := by exact_mod_cast hdep2
    have hfuel : (((depth : Int)) - 1).toNat ≤ depth := by omega
    rw [← Option.isSome_iff_exists]
    rw [up_block_step, List.get?_eq_get h1]
    simp only [Option.some_bind]
    rw [do_pooling_eq_iterate pool depth ((depth : Int)) _ hcast hfuel]
    simp only [Option.some_bind]
    rw [List.get?_eq_get hr]
    simp only [Option.some_bind]
    rw [List.get?_eq_get h0]
    rfl
  obtain ⟨ub, hub⟩ := listMapM_isSome hforall
  refine ⟨?_, by simp, by simp⟩
  rw [block_filters, if_neg (by simp [hne]), hub]
  show some _ = _
  rw [down_plot_events, up_plot_events, zip_range_map_tag, zip_range_map_tag,
    List.length_range, List.length_range, hDL, hu]

/-- Witness for C3 at a concrete input: depth 3 with three down blocks and
two up blocks on natural numbers produces exactly the five plot events
`down 64, down 128, down 256, up 16, up 32`. -/
theorem C3_block_filters_witness :
    block_filters [fun x => x + 1, fun x => x * 2, fun x => x + 3]
        [fun p => p.1 + p.2, fun p => p.1 * p.2] (fun x => x / 2) 3 (0 : Nat) =
      some [("down", 64), ("down", 128), ("down", 256), ("up", 16), ("up", 32)] :=
  ((C3_block_filters [fun x => x + 1, fun x => x * 2, fun x => x + 3]
      [fun p => p.1 + p.2, fun p => p.1 * p.2] (fun x => x / 2) 3 0
      (by decide) (by decide) (by decide)).1).trans (by decide)

/-- Maximum of a list of scores, embedding the values part of
`output.max(1)` for the single batch element: `none` on an empty list
(where torch raises). -/
def list_max : List ℚ → Option ℚ
  | [] => none
  | x :: xs =>
    some (match list_max xs with
      | none => x
      | some m => max x m)

theorem list_max_spec :
    ∀ (l : List ℚ) (m : ℚ), list_max l = some m → m ∈ l ∧ ∀ x ∈ l, x ≤ m := by
  intro l
  induction l with
  | nil => intro m h; exact absurd h (by simp [list_max])
  | cons x xs ih =>
    intro m h
    cases hxs : list_max xs with
    | none =>
      rw [list_max, hxs] at h
      simp only [Option.some.injEq] at h
      subst h
      cases xs with
      | nil => exact ⟨List.mem_singleton_self x, by simp⟩
      | cons y ys => exact absurd hxs (by simp [list_max])
    | some m' =>
      rw [list_max, hxs] at h
      simp only [Option.some.injEq] at h
      subst h
      obtain ⟨hmem, hbound⟩ := ih m' hxs
      constructor
      · rcases max_choice x m' with hc | hc
        · rw [hc]; exact List.mem_cons_self x xs
        · rw [hc]; exact List.mem_cons_of_mem x hmem
      · intro z hz
        rcases List.mem_cons.mp hz with hz | hz
        · subst hz; exact le_max_left _ _
        · exact le_trans (hbound z hz) (le_max_right _ _)

theorem list_max_isSome {l : List ℚ} (h : l ≠ []) : ∃ m, list_max l = some m := by
  cases l with
  | nil => exact absurd rfl h
  | cons x xs => exact ⟨_, rfl⟩

/-- Embedding of `output.max(1)[1].data.numpy()[0]` for a single-batch
classification output: the index of the first maximal entry of the score
list (0 on an empty list, where torch raises instead). -/
def argmax_idx (l : List ℚ) : Nat :=
  match list_max l with
  | none => 0
  | some m => l.indexOf m

theorem argmax_idx_spec {l : List ℚ} (h : l ≠ []) :
    ∃ v, l.get? (argmax_idx l) = some v ∧ ∀ x ∈ l, x ≤ v := by
  obtain ⟨m, hm⟩ := list_max_isSome h
  obtain ⟨hmem, hbound⟩ := list_max_spec l m hm
  refine ⟨m, ?_, hbound⟩
  rw [argmax_idx, hm]
  rw [List.get?_eq_get (List.indexOf_lt_length.mpr hmem), List.indexOf_get]

theorem argmax_idx_lt {l : List ℚ} (h : l ≠ []) : argmax_idx l < l.length := by
  obtain ⟨m, hm⟩ := list_max_isSome h
  obtain ⟨hmem, _⟩ := list_max_spec l m hm
  rw [argmax_idx, hm]
  exact List.indexOf_lt_length.mpr hmem

/-- Embedding of the one-hot construction (interpret.py lines 166–170):
`one_hot_output = torch.zeros(output.size())` followed by
`one_hot_output[0, c] = 1`, flattening away the leading batch dimension of
size 1. -/
def one_hot (n i : Nat) : List ℚ :=
  (List.range n).map (fun j => if j = i then 1 else 0)

theorem one_hot_get? (n i j : Nat) (hj : j < n) :
    (one_hot n i).get? j = some (if j = i then 1 else 0) := by
  rw [one_hot, List.get?_map, List.get?_range hj]
  rfl

/-- The model as `sensitivity_analysis` sees it: an opaque forward/backward
collaborator.  `output` is the class-score vector the forward pass
`output = model(X)` produces for the single batch element, and `gradOf v`
is what autograd's `output.backward(gradient=v)` followed by
`X.grad.data[0]` yields: the gradient of the `v`-weighted output with
respect to the input image. -/
structure SAModel where
  output : List ℚ
  gradOf : List ℚ → List ℚ

/-- The class index whose one-hot weight is backpropagated
(interpret.py lines 162–170): the argmax class when `target_class` is
`None`, otherwise `target_class` itself. -/
def sens_class (m : SAModel) (target_class : Option Nat) : Nat :=
  match target_class with
  | none => argmax_idx m.output
  | some t => t

/-- The `one_hot_output` tensor passed to `output.backward`. -/
def sens_one_hot (m : SAModel) (target_class : Option Nat) : List ℚ :=
  one_hot m.output.length (sens_class m target_class)

/-- The raw relevance map `X.grad.data[0].numpy()` (interpret.py line 173). -/
def sens_grad (m : SAModel) (target_class : Option Nat) : List ℚ :=
  m.gradOf (sens_one_hot m target_class)

/-- Embedding of the postprocessing dispatch
(interpret.py lines 175–182):

    if postprocess == 'abs': return np.abs(relevance_map)
    elif postprocess == 'square': return relevance_map ** 2
    elif postprocess is None: return relevance_map
    else: raise ValueError()

`postprocess` is `None` or a string; the `ValueError` is `Except.error`. -/
def sensitivity_postprocess (relevance_map : List ℚ) (postprocess : Option String) :
    Except Unit (List ℚ) :=
  if postprocess = some "abs" then Except.ok (relevance_map.map (fun v => |v|))
  else if postprocess = some "square" then Except.ok (relevance_map.map (fun v => v * v))
  else if postprocess = none then Except.ok relevance_map
  else Except.error ()

/-- Shallow embedding of `sensitivity_analysis(model, image_tensor,
target_class, postprocess)` (interpret.py lines 143–182), with the
forward/backward machinery abstracted into `SAModel`. -/
def sensitivity_analysis (m : SAModel) (target_class : Option Nat)
    (postprocess : Option String) : Except Unit (List ℚ) :=
  sensitivity_postprocess (sens_grad m target_class) postprocess

theorem sensitivity_postprocess_abs (g : List ℚ) :
    sensitivity_postprocess g (some "abs") = Except.ok (g.map (fun v => |v|)) := by
  simp [sensitivity_postprocess]

theorem sensitivity_postprocess_square (g : List ℚ) :
    sensitivity_postprocess g (some "square") = Except.ok (g.map (fun v => v * v)) := by
  simp [sensitivity_postprocess]

theorem sensitivity_postprocess_raw (g : List ℚ) :
    sensitivity_postprocess g none = Except.ok g := by
  simp [sensitivity_postprocess]

theorem sensitivity_postprocess_err (g : List ℚ) (p : Option String)
    (h1 : p ≠ some "abs") (h2 : p ≠ some "square") (h3 : p ≠ none) :
    sensitivity_postprocess g p = Except.error () := by
  simp [sensitivity_postprocess, h1, h2, h3]

/-- Claim C1: `sensitivity_analysis` raises exactly when `postprocess` is
none of `'abs'`, `'square'`, `None`; for `'abs'` it returns the elementwise
absolute value of the input gradient, for `'square'` the elementwise
square, for `None` the raw gradient map, and for every other value a
`ValueError` with no map returned. -/
theorem C1_sensitivity_error (m : SAModel) (tc : Option Nat) (p : Option String) :
    (sensitivity_analysis m tc p = Except.error () ↔
      p ≠ some "abs" ∧ p ≠ some "square" ∧ p ≠ none) ∧
    sensitivity_analysis m tc (some "abs") =
      Except.ok ((sens_grad m tc).map (fun v => |v|)) ∧
    sensitivity_analysis m tc (some "square") =
      Except.ok ((sens_grad m tc).map (fun v => v * v)) ∧
    sensitivity_analysis m tc none = Except.ok (sens_grad m tc) := by
  refine ⟨⟨?_, ?_⟩, sensitivity_postprocess_abs _, sensitivity_postprocess_square _,
    sensitivity_postprocess_raw _⟩
  · intro h
    refine ⟨?_, ?_, ?_⟩ <;> intro hp <;> rw [hp] at h
    · exact absurd ((sensitivity_postprocess_abs (sens_grad m tc)).symm.trans h) (by simp)
    · exact absurd ((sensitivity_postprocess_square (sens_grad m tc)).symm.trans h) (by simp)
    · exact absurd ((sensitivity_postprocess_raw (sens_grad m tc)).symm.trans h) (by simp)
  · rintro ⟨h1, h2, h3⟩
    exact sensitivity_postprocess_err _ p h1 h2 h3

/-- Witness for C1 at concrete inputs: the unsupported mode `'cube'`
raises, and `None` returns the raw map. -/
theorem C1_sensitivity_error_witness :
    sensitivity_analysis ⟨[(3 : ℚ)], fun v => v⟩ none (some "cube") = Except.error () ∧
    sensitivity_analysis ⟨[(3 : ℚ)], fun v => v⟩ none none =
      Except.ok (sens_grad ⟨[(3 : ℚ)], fun v => v⟩ none) :=
  ⟨(C1_sensitivity_error ⟨[(3 : ℚ)], fun v => v⟩ none (some "cube")).1.mpr
      ⟨by simp, by simp, by simp⟩,
   (C1_sensitivity_error ⟨[(3 : ℚ)], fun v => v⟩ none none).2.2.2⟩

/-- Claim C5: the one-hot gradient backpropagated by
`sensitivity_analysis` has its single 1 at the argmax of the model output
when `target_class` is `None`, and at `target_class` when given; the
returned heatmap (raw mode) is the gradient of that one-hot-weighted
output with respect to the input image. -/
theorem C5_sensitivity_attribution (m : SAModel) (tc : Option Nat)
    (hne : m.output ≠ []) (ht : ∀ t, tc = some t → t < m.output.length) :
    sens_class m tc < m.output.length ∧
    (∀ j, j < m.output.length →
      (sens_one_hot m tc).get? j = some (if j = sens_class m tc then 1 else 0)) ∧
    (tc = none →
      ∃ v, m.output.get? (sens_class m tc) = some v ∧ ∀ x ∈ m.output, x ≤ v) ∧
    (∀ t, tc = some t → sens_class m tc = t) ∧
    sensitivity_analysis m tc none = Except.ok (m.gradOf (sens_one_hot m tc)) := by
  refine ⟨?_, ?_, ?_, ?_, ?_⟩
  · cases tc with
    | none => exact argmax_idx_lt hne
    | some t => exact ht t rfl
  · intro j hj
    exact one_hot_get? _ _ _ hj
  · intro h
    subst h
    exact argmax_idx_spec hne
  · intro t h
    subst h
    rfl
  · exact sensitivity_postprocess_raw _

/-- Witness for C5 at a concrete input: a three-class output whose argmax
is class 1. -/
theorem C5_sensitivity_attribution_witness :
    sensitivity_analysis ⟨[(1 : ℚ), 3, 2], fun v => v⟩ none none =
      Except.ok (SAModel.gradOf ⟨[(1 : ℚ), 3, 2], fun v => v⟩
        (sens_one_hot ⟨[(1 : ℚ), 3, 2], fun v => v⟩ none)) :=
  (C5_sensitivity_attribution ⟨[(1 : ℚ), 3, 2], fun v => v⟩ none (by simp)
    (fun t h => Option.noConfusion h)).2.2.2.2

/-- Claim C10: with postprocess `'abs'` or `'square'` the returned
relevance map is elementwise nonnegative for every model and target class,
whereas with postprocess `None` the returned map can contain negative
entries. -/
theorem C10_postprocess_sign :
    (∀ (m : SAModel) (tc : Option Nat) (r : List ℚ),
        sensitivity_analysis m tc (some "abs") = Except.ok r → ∀ x ∈ r, 0 ≤ x) ∧
    (∀ (m : SAModel) (tc : Option Nat) (r : List ℚ),
        sensitivity_analysis m tc (some "square") = Except.ok r → ∀ x ∈ r, 0 ≤ x) ∧
    (∃ (m : SAModel) (tc : Option Nat) (r : List ℚ),
        sensitivity_analysis m tc none = Except.ok r ∧ ∃ x ∈ r, x < 0) := by
  refine ⟨?_, ?_, ?_⟩
  · intro m tc r h x hx
    have h2 := (sensitivity_postprocess_abs (sens_grad m tc)).symm.trans h
    simp only [Except.ok.injEq] at h2
    subst h2
    obtain ⟨y, _, rfl⟩ := List.mem_map.mp hx
    exact abs_nonneg y
  · intro m tc r h x hx
    have h2 := (sensitivity_postprocess_square (sens_grad m tc)).symm.trans h
    simp only [Except.ok.injEq] at h2
    subst h2
    obtain ⟨y, _, rfl⟩ := List.mem_map.mp hx
    exact mul_self_nonneg y
  · exact ⟨⟨[5], fun _ => [-1]⟩, none, [-1], sensitivity_postprocess_raw _,
      -1, by simp, by norm_num⟩

/-- Witness for C10 at a concrete input: the abs-postprocessed map of a
one-class model is elementwise nonnegative. -/
theorem C10_postprocess_sign_witness :
    ∀ x ∈ ((sens_grad ⟨[(5 : ℚ)], fun v => v⟩ none).map (fun v => |v|)), 0 ≤ x :=
  C10_postprocess_sign.1 ⟨[(5 : ℚ)], fun v => v⟩ none _ (sensitivity_postprocess_abs _)

/-- The brace characters of a Python format placeholder. -/
def braceOpen : Char := Char.ofNat 123

def braceClose : Char := Char.ofNat 125

/-- Model of Python `str.format` with positional auto-numbered
placeholders, on character lists: each open-close brace pair consumes the
next insert.  The templates in interpret.py use only this form. -/
def pyFormatRun : List Char → List String → List Char
  | [], _ => []
  | [c], _ => [c]
  | c :: d :: rest, inserts =>
    if c = braceOpen ∧ d = braceClose then
      match inserts with
      | s :: ss => s.data ++ pyFormatRun rest ss
      | [] => pyFormatRun rest []
    else c :: pyFormatRun (d :: rest) inserts

def pyFormat (template : String) (inserts : List String) : String :=
  String.mk (pyFormatRun template.data inserts)

/-- The file paths `plot_block` passes to `savefig`
(interpret.py lines 86–97): the function draws one figure and saves it
once, to `args.interpret_path + '/{}_block_filter_{}.png'.format(name,
img_size)` — exactly one output file per call. -/
def plot_block_files (interpret_path : String) (name : String) (img_size : Nat) :
    List String :=
  [interpret_path ++ pyFormat "/\x7b\x7d_block_filter_\x7b\x7d.png" [name, toString img_size]]

/-- The file paths `plot_sensitivity` passes to `savefig`
(interpret.py lines 185–202): a single save to
`args.interpret_path + '/sensitivity.png'`. -/
def plot_sensitivity_files (interpret_path : String) : List String :=
  [interpret_path ++ "/sensitivity.png"]

/-- Claim C6: `plot_block` writes exactly one file, named
`{interpret_path}/{name}_block_filter_{size}.png`, and `plot_sensitivity`
writes exactly one file, named `{interpret_path}/sensitivity.png`; neither
produces any other output path. -/
theorem C6_output_paths (ip : String) (nm : String) (size : Nat) :
    plot_block_files ip nm size =
      [ip ++ ("/" ++ (nm ++ ("_block_filter_" ++ (toString size ++ ".png"))))] ∧
    plot_sensitivity_files ip = [ip ++ "/sensitivity.png"] :=
  ⟨rfl, rfl⟩

/-- One `add_argument` call of `parse_args` (interpret.py lines 24–32):
the long flag, its default (kept as the string argparse would store before
any `type=int` conversion, which is irrelevant to the claims below), and
the `choices` restriction when present. -/
structure ArgOption where
  flag : String
  dflt : String
  choices : Option (List String)

/-- The option table built by `parse_args` (interpret.py lines 21–34),
one entry per `add_argument` call, in source order. -/
def interpret_options : List ArgOption :=
  [⟨"--main_dir", "C:\\Users\\Mukesh\\Segmentation\\radnet\\", none⟩,
   ⟨"--interpret_path", "./visualize", none⟩,
   ⟨"--weights_dir", "./weights", none⟩,
   ⟨"--image_size", "64", none⟩,
   ⟨"--depth", "3", none⟩,
   ⟨"--plot_interpret", "block_filters", some ["sensitivity", "block_filters"]⟩,
   ⟨"--plot_size", "128", none⟩]

/-- Model of argparse's scan for a long option given as two tokens
`--flag value`: the last occurrence wins, as in argparse.  (A flag as the
very last token, which argparse rejects with `expected one argument`, is
modelled as the flag being absent; no claim depends on that corner.) -/
def lookupFlagValue (flag : String) : List String → Option String
  | [] => none
  | [_] => none
  | a :: b :: rest =>
    match lookupFlagValue flag (b :: rest) with
    | some v => some v
    | none => if a == flag then some b else none

/-- Model of argparse's handling of a single configured option against an
argument list: an absent flag yields the default, a present flag yields
its value when the option has no `choices` restriction or the value is
listed, and otherwise parsing fails (argparse exits with an error). -/
def parseOption (opt : ArgOption) (args : List String) : Except Unit String :=
  match lookupFlagValue opt.flag args with
  | none => Except.ok opt.dflt
  | some v =>
    match opt.choices with
    | none => Except.ok v
    | some cs => if v ∈ cs then Except.ok v else Except.error ()

/-- The `--plot_interpret` option of `parse_args` as configured on
interpret.py lines 30–31, applied to an argument list. -/
def parse_plot_interpret (args : List String) : Except Unit String :=
  match interpret_options.find? (fun o => o.flag == "--plot_interpret") with
  | some opt => parseOption opt args
  | none => Except.error ()

theorem parse_plot_interpret_eq (args : List String) :
    parse_plot_interpret args =
      parseOption ⟨"--plot_interpret", "block_filters",
        some ["sensitivity", "block_filters"]⟩ args := rfl

/-- Claim C7: `parse_args` accepts for `--plot_interpret` exactly the two
values `sensitivity` and `block_filters`: when the flag's value is one of
these two, parsing of the option succeeds with that value stored; for
every other value it fails; when the flag is absent the value defaults to
`block_filters`. -/
theorem C7_plot_interpret_choices (args : List String) :
    (∀ v, lookupFlagValue "--plot_interpret" args = some v →
      ((v = "sensitivity" ∨ v = "block_filters") →
        parse_plot_interpret args = Except.ok v) ∧
      ((v ≠ "sensitivity" ∧ v ≠ "block_filters") →
        parse_plot_interpret args = Except.error ())) ∧
    (lookupFlagValue "--plot_interpret" args = none →
      parse_plot_interpret args = Except.ok "block_filters") := by
  rw [parse_plot_interpret_eq]
  constructor
  · intro v hv
    constructor
    · intro hmem
      simp only [parseOption, hv]
      rw [if_pos (by rcases hmem with h | h <;> simp [h])]
    · rintro ⟨h1, h2⟩
      simp only [parseOption, hv]
      rw [if_neg (by simp [h1, h2])]
  · intro hnone
    simp only [parseOption, hnone]

/-- Witness for C7 at concrete argument lists: an accepted value, a
rejected value, and the default. -/
theorem C7_plot_interpret_choices_witness :
    parse_plot_interpret ["--plot_interpret", "sensitivity"] = Except.ok "sensitivity" ∧
    parse_plot_interpret ["--plot_interpret", "gradcam"] = Except.error () ∧
    parse_plot_interpret ["--depth", "4"] = Except.ok "block_filters" :=
  ⟨((C7_plot_interpret_choices ["--plot_interpret", "sensitivity"]).1 "sensitivity"
      (by rfl)).1 (Or.inl rfl),
   ((C7_plot_interpret_choices ["--plot_interpret", "gradcam"]).1 "gradcam"
      (by rfl)).2 ⟨by decide, by decide⟩,
   (C7_plot_interpret_choices ["--depth", "4"]).2 (by rfl)⟩

/-- The externally observable steps of `main` (interpret.py lines 205–230),
in program order: parse the arguments, create the interpret directory if
needed, load the model, then run the dispatched visualization routine
(which is where every file write happens). -/
inductive MainEvent where
  | parsed_args : MainEvent
  | made_interpret_dir : MainEvent
  | loaded_model : MainEvent
  | ran_plot_sensitivity : MainEvent
  | ran_block_filters : MainEvent
deriving DecidableEq

/-- Shallow embedding of `main(args)` as its event trace: after a
successful parse the script runs `plot_sensitivity` when
`args.plot_interpret == 'sensitivity'` and `block_filters` when
`args.plot_interpret == 'block_filters'` — two separate `if` statements,
not an `if`/`else` (interpret.py lines 224–228). -/
def main_trace (args : List String) : Except Unit (List MainEvent) :=
  match parse_plot_interpret args with
  | Except.error e => Except.error e
  | Except.ok v =>
    Except.ok ([MainEvent.parsed_args, MainEvent.made_interpret_dir, MainEvent.loaded_model] ++
      (if v = "sensitivity" then [MainEvent.ran_plot_sensitivity] else []) ++
      (if v = "block_filters" then [MainEvent.ran_block_filters] else []))

theorem parse_plot_interpret_ok_cases (args : List String) (v : String)
    (h : parse_plot_interpret args = Except.ok v) :
    v = "sensitivity" ∨ v = "block_filters" := by
  rw [parse_plot_interpret_eq] at h
  cases hl : lookupFlagValue "--plot_interpret" args with
  | none =>
    simp only [parseOption, hl, Except.ok.injEq] at h
    exact Or.inr h.symm
  | some w =>
    simp only [parseOption, hl] at h
    by_cases hw : w ∈ ["sensitivity", "block_filters"]
    · rw [if_pos hw] at h
      simp only [Except.ok.injEq] at h
      subst h
      simpa using hw
    · rw [if_neg hw] at h
      exact absurd h (by simp)

/-- Claim C8: `main` is a single linear pipeline.  Whenever it runs to an
event trace, the trace starts with parsing, directory setup and model
loading in that order, and exactly one of the two visualization routines
runs — `plot_sensitivity` when `plot_interpret` parsed to `sensitivity`,
`block_filters` when it parsed to `block_filters` — never both, with the
dispatched routine as the final step. -/
theorem C8_main_dispatch (args : List String) (tr : List MainEvent)
    (h : main_trace args = Except.ok tr) :
    ∃ v, parse_plot_interpret args = Except.ok v ∧
      tr.take 3 = [MainEvent.parsed_args, MainEvent.made_interpret_dir,
        MainEvent.loaded_model] ∧
      tr.count MainEvent.ran_plot_sensitivity + tr.count MainEvent.ran_block_filters = 1 ∧
      (v = "sensitivity" → tr = [MainEvent.parsed_args, MainEvent.made_interpret_dir,
        MainEvent.loaded_model, MainEvent.ran_plot_sensitivity]) ∧
      (v = "block_filters" → tr = [MainEvent.parsed_args, MainEvent.made_interpret_dir,
        MainEvent.loaded_model, MainEvent.ran_block_filters]) ∧
      ¬(MainEvent.ran_plot_sensitivity ∈ tr ∧ MainEvent.ran_block_filters ∈ tr) := by
  cases hp : parse_plot_interpret args with
  | error e =>
    rw [main_trace, hp] at h
    exact absurd h (by simp)
  | ok v =>
    rw [main_trace, hp] at h
    rcases parse_plot_interpret_ok_cases args v hp with h1 | h1 <;> subst h1
    · simp only [if_pos rfl, if_neg (by decide : ¬("sensitivity" = "block_filters")),
        Except.ok.injEq] at h
      subst h
      exact ⟨"sensitivity", rfl, by decide, by decide, fun _ => by decide,
        fun hc => absurd hc (by decide), by decide⟩
    · simp only [if_pos rfl, if_neg (by decide : ¬("block_filters" = "sensitivity")),
        Except.ok.injEq] at h
      subst h
      exact ⟨"block_filters", rfl, by decide, by decide, fun hc => absurd hc (by decide),
        fun _ => by decide, by decide⟩

/-- Witness for C8 at a concrete input: with no flags, the default
`block_filters` routine is the one dispatched. -/
theorem C8_main_dispatch_witness :
    ∃ v, parse_plot_interpret [] = Except.ok v ∧
      ([MainEvent.parsed_args, MainEvent.made_interpret_dir, MainEvent.loaded_model,
        MainEvent.ran_block_filters].take 3 = [MainEvent.parsed_args,
        MainEvent.made_interpret_dir, MainEvent.loaded_model]) ∧
      ([MainEvent.parsed_args, MainEvent.made_interpret_dir, MainEvent.loaded_model,
        MainEvent.ran_block_filters].count MainEvent.ran_plot_sensitivity +
       [MainEvent.parsed_args, MainEvent.made_interpret_dir, MainEvent.loaded_model,
        MainEvent.ran_block_filters].count MainEvent.ran_block_filters = 1) ∧
      (v = "sensitivity" → [MainEvent.parsed_args, MainEvent.made_interpret_dir,
        MainEvent.loaded_model, MainEvent.ran_block_filters] = [MainEvent.parsed_args,
        MainEvent.made_interpret_dir, MainEvent.loaded_model,
        MainEvent.ran_plot_sensitivity]) ∧
      (v = "block_filters" → [MainEvent.parsed_args, MainEvent.made_interpret_dir,
        MainEvent.loaded_model, MainEvent.ran_block_filters] = [MainEvent.parsed_args,
        MainEvent.made_interpret_dir, MainEvent.loaded_model,
        MainEvent.ran_block_filters]) ∧
      ¬(MainEvent.ran_plot_sensitivity ∈ [MainEvent.parsed_args,
          MainEvent.made_interpret_dir, MainEvent.loaded_model,
          MainEvent.ran_block_filters] ∧
        MainEvent.ran_block_filters ∈ [MainEvent.parsed_args,
          MainEvent.made_interpret_dir, MainEvent.loaded_model,
          MainEvent.ran_block_filters]) :=
  C8_main_dispatch [] [MainEvent.parsed_args, MainEvent.made_interpret_dir,
    MainEvent.loaded_model, MainEvent.ran_block_filters] (by rfl)

/-- A tensor at the shape level: just its dimension list, which is all the
batch-size claims need. -/
structure STensor where
  shape : List Nat

/-- Shape semantics of the framework primitive `tensor.unsqueeze(dim)`:
insert a dimension of size 1 at position `dim`. -/
def unsqueeze (t : STensor) (dim : Nat) : STensor :=
  ⟨t.shape.take dim ++ [1] ++ t.shape.drop dim⟩

/-- Shape semantics of the framework indexing `tensor[None]`: prepend a
dimension of size 1. -/
def index_none (t : STensor) : STensor :=
  ⟨1 :: t.shape⟩

/-- The tensor `block_filters` feeds to the first down block
(interpret.py line 112): `input_img = img_tensor.unsqueeze(0).to(device)`. -/
def block_filters_model_input (img_tensor : STensor) : STensor :=
  unsqueeze img_tensor 0

/-- The tensor `sensitivity_analysis` feeds to the model
(interpret.py line 158): `X = Variable(image_tensor[None],
requires_grad=True)`. -/
def sensitivity_model_input (image_tensor : STensor) : STensor :=
  index_none image_tensor

/-- Claim C9: execution is batch-of-one — for every loaded image tensor,
the input `block_filters` runs the model blocks on is `unsqueeze(0)` of it
and the input `sensitivity_analysis` runs the model on is `[None]` of it,
and both have a leading batch dimension equal to 1. -/
theorem C9_batch_of_one (t : STensor) :
    (block_filters_model_input t).shape = 1 :: t.shape ∧
    (sensitivity_model_input t).shape = 1 :: t.shape ∧
    (block_filters_model_input t).shape.head? = some 1 ∧
    (sensitivity_model_input t).shape.head? = some 1 := by
  refine ⟨?_, rfl, ?_, rfl⟩
  · simp [block_filters_model_input, unsqueeze]
  · simp [block_filters_model_input, unsqueeze]
